import Mathlib

/-!
Verification development for the Applications_Tracker repository.

The embedding covers the two components the specification singles out —
the LLM response normalizer (`ai_services.parse_response_to_json`) and the
interview scheduling guard (`database.Database._check_overlap` together
with `create_interview` / `update_interview`) — plus the list, delete and
profile operations referenced by the remaining claims.

Strings are embedded as `List Char`; timestamps as `Int` (an order-isomorphic
stand-in for `datetime` values); fallible Python code as `Except`/`Option`
returning functions.
-/

namespace AppTracker

/-- Characters matched by Python's regex class `\s` (ASCII range):
space, tab, newline, carriage return, vertical tab, form feed. -/
def isPySpace (c : Char) : Bool :=
  c = ' ' || c = '\t' || c = '\n' || c = '\r' || c = '\x0b' || c = '\x0c'

/-- Opening brackets accepted by the extraction regexes: `{` or `[`. -/
def isOpenBr (c : Char) : Bool := c = '\x7b' || c = '['

/-- Closing brackets accepted by the extraction regexes: `}` or `]`. -/
def isCloseBr (c : Char) : Bool := c = '\x7d' || c = ']'

/-- Lookahead of the pattern `,\s*([}\]])` after its comma: greedily skip
whitespace; succeed iff the next character is `}` or `]`, returning that
bracket and the text after it. -/
def matchTrail (rest : List Char) : Option (Char × List Char) :=
  match rest.dropWhile isPySpace with
  | d :: tail => if isCloseBr d then some (d, tail) else none
  | [] => none

/-- Scanner of `re.sub(r',\s*([}\]])', r'\1', text)` (ai_services.py:35)
with an explicit step budget.  The scanner tries a match at every position,
left to right.  At a comma, if whitespace-then-closing-bracket follows, the
whole match is replaced by the bracket alone and scanning resumes after the
bracket; otherwise the character is kept and scanning moves one position
right.  Every step consumes at least one character, so a budget of the text
length always suffices (`removeTCF_fuel` below). -/
def removeTCF : Nat → List Char → List Char
  | 0, l => l
  | _ + 1, [] => []
  | fuel + 1, c :: rest =>
    if c = ',' then
      match matchTrail rest with
      | some (d, tail) => d :: removeTCF fuel tail
      | none => c :: removeTCF fuel rest
    else c :: removeTCF fuel rest

/-- Model of `re.sub(r',\s*([}\]])', r'\1', text)`: the scan with an always
sufficient budget. -/
def removeTC (l : List Char) : List Char := removeTCF l.length l

/-- Does `l` begin with a match of the pattern `,\s*([}\]])`? -/
def startsCWC (l : List Char) : Bool :=
  match l with
  | c :: rest => decide (c = ',') && (matchTrail rest).isSome
  | [] => false

/-- Does `l` begin with a comma followed, after whitespace, by another
comma? -/
def startsCWComma (l : List Char) : Bool :=
  match l with
  | c :: rest =>
    decide (c = ',') &&
      (match rest.dropWhile isPySpace with
       | d :: _ => decide (d = ',')
       | [] => false)
  | [] => false

/-- Does some position of `l` match `,\s*([}\]])`? -/
def hasCWC (l : List Char) : Bool := l.tails.any startsCWC

/-- Does some position of `l` hold a comma followed, after whitespace, by
another comma? -/
def hasCWComma (l : List Char) : Bool := l.tails.any startsCWComma

/-- PostgreSQL's `(s1, e1) OVERLAPS (s2, e2)` predicate on timestamps
(database.py:405-409 issues this in SQL).  Postgres first reorders each
pair so that the earlier value is the start, then: if the starts differ,
the later-starting period overlaps iff it starts before the other ends;
periods with equal starts always overlap (a pair with start = end is the
single instant). -/
def pgOverlaps (s1 e1 s2 e2 : Int) : Bool :=
  if min s2 e2 < min s1 e1 then decide (min s1 e1 < max s2 e2)
  else if min s1 e1 < min s2 e2 then decide (min s2 e2 < max s1 e1)
  else true

/-- The half-open interval intersection test named by the specification:
`existing.start < candidate.end AND existing.end > candidate.start`. -/
def formulaOverlaps (s1 e1 s2 e2 : Int) : Bool :=
  decide (s1 < e2) && decide (e1 > s2)

/-- Decimal value of a digit list, most significant digit first. -/
def digitsVal (ds : List Char) : Int :=
  ds.foldl (fun a c => a * 10 + ((c.toNat : Int) - 48)) 0

/-- Leading and trailing whitespace removal, as `int(str)` performs before
parsing. -/
def pyIntTrim (s : List Char) : List Char :=
  ((s.dropWhile isPySpace).reverse.dropWhile isPySpace).reverse

/-- Model of Python's `int(s)` on a string: optional surrounding whitespace,
optional sign, then a non-empty digit run; anything else raises ValueError
(`none` here).  Digit-group underscores are not modelled. -/
def pyInt (s : List Char) : Option Int :=
  match pyIntTrim s with
  | '-' :: ds =>
    if !ds.isEmpty && ds.all (fun c => c.isDigit) then some (-(digitsVal ds)) else none
  | '+' :: ds =>
    if !ds.isEmpty && ds.all (fun c => c.isDigit) then some (digitsVal ds) else none
  | ds =>
    if !ds.isEmpty && ds.all (fun c => c.isDigit) then some (digitsVal ds) else none

/-- The `Interview` model (models.py:75-88), minus the optional `id` field:
row identity is kept separately as the integer primary key of the stored
row, since SERIAL assigns it at insert time. -/
structure Interview where
  interview_title : List Char
  start_datetime : Int
  end_datetime : Int
  location : Option (List Char)
  notes : Option (List Char)
  interview_type : Option (List Char)
deriving DecidableEq

/-- The `interviews` table: rows are (SERIAL primary key, record); `nextId`
is the sequence backing the SERIAL column. -/
structure InterviewsTable where
  rows : List (Int × Interview)
  nextId : Int
deriving DecidableEq

/-- The empty interviews store (SERIAL sequences start at 1). -/
def dbEmpty : InterviewsTable := { rows := [], nextId := 1 }

/-- Errors raised by the database layer: `conflict` is the
ValueError("Interview time overlaps...") of create/update; `valueErr` is
the ValueError escaping `int(...)` on a malformed identity string. -/
inductive DbError where
  | conflict
  | valueErr
deriving DecidableEq

/-- Model of `Database._check_overlap` (database.py:403-417): counts rows
satisfying `(start_datetime, end_datetime) OVERLAPS ($1, $2)`, with
`AND id != $3` when an excluded identity is given, and reports whether the
count is positive. -/
def checkOverlap (rows : List (Int × Interview)) (s e : Int) (excl : Option Int) : Bool :=
  rows.any (fun r =>
    (match excl with
     | some x => decide (r.1 ≠ x)
     | none => true) &&
    pgOverlaps r.2.start_datetime r.2.end_datetime s e)

/-- Model of `Database.create_interview` (database.py:419-438): raise on
overlap, otherwise INSERT with a fresh SERIAL id and return the record. -/
def create_interview (st : InterviewsTable) (iv : Interview) :
    Except DbError Interview × InterviewsTable :=
  if checkOverlap st.rows iv.start_datetime iv.end_datetime none then
    (.error .conflict, st)
  else
    (.ok iv, { rows := st.rows ++ [(st.nextId, iv)], nextId := st.nextId + 1 })

/-- Model of `Database.update_interview` (database.py:440-468): parse the
identity (ValueError propagates), raise on overlap against all other rows,
otherwise UPDATE the row with that id, returning `none` when no row
matched. -/
def update_interview (st : InterviewsTable) (interview_id : List Char) (iv : Interview) :
    Except DbError (Option Interview) × InterviewsTable :=
  match pyInt interview_id with
  | none => (.error .valueErr, st)
  | some n =>
    if checkOverlap st.rows iv.start_datetime iv.end_datetime (some n) then
      (.error .conflict, st)
    else if st.rows.any (fun r => decide (r.1 = n)) then
      (.ok (some iv),
       { st with rows := st.rows.map (fun r => if r.1 = n then (n, iv) else r) })
    else
      (.ok none, st)

/-- Model of `Database.delete_interview` (database.py:470-473): parse the
identity (ValueError propagates), DELETE, and return True unconditionally
whether or not a row was removed. -/
def delete_interview (st : InterviewsTable) (interview_id : List Char) :
    Except DbError Bool × InterviewsTable :=
  match pyInt interview_id with
  | none => (.error .valueErr, st)
  | some n =>
    (.ok true, { st with rows := st.rows.filter (fun r => !(decide (r.1 = n))) })

/-- Interview write operations offered by the storage layer. -/
inductive Op where
  | create (iv : Interview)
  | update (interview_id : List Char) (iv : Interview)

/-- One storage operation applied to the store (returned values discarded). -/
def stepOp (st : InterviewsTable) : Op → InterviewsTable
  | .create iv => (create_interview st iv).2
  | .update ids iv => (update_interview st ids iv).2

/-- The store after a sequence of create/update operations starting from the
empty store. -/
def runOps (ops : List Op) : InterviewsTable := ops.foldl stepOp dbEmpty

/-- No two rows at distinct positions satisfy the half-open intersection
formula `A.start < B.end AND A.end > B.start`, in either orientation. -/
def NoPairOverlap (rows : List (Int × Interview)) : Prop :=
  rows.Pairwise (fun a b =>
    formulaOverlaps a.2.start_datetime a.2.end_datetime
      b.2.start_datetime b.2.end_datetime = false ∧
    formulaOverlaps b.2.start_datetime b.2.end_datetime
      a.2.start_datetime a.2.end_datetime = false)

/-- Inductive invariant of the interviews store: ids are below the SERIAL
sequence value, pairwise distinct, and no two rows satisfy the PostgreSQL
OVERLAPS predicate. -/
def InvDb (st : InterviewsTable) : Prop :=
  (∀ r ∈ st.rows, r.1 < st.nextId) ∧
  st.rows.Pairwise (fun a b => a.1 ≠ b.1) ∧
  st.rows.Pairwise (fun a b =>
    pgOverlaps a.2.start_datetime a.2.end_datetime
      b.2.start_datetime b.2.end_datetime = false)

/-- The `ApplicationStatus` enum (models.py:6-10). -/
inductive ApplicationStatus where
  | applied
  | interview
  | rejection
  | offer
deriving DecidableEq

/-- The `JobApplication` model (models.py:19-34), minus the optional `id`
(kept as the stored row's primary key) and the server-side `last_updated`
timestamp. -/
structure JobApplication where
  job_title : List Char
  company : List Char
  description : Option (List Char)
  link : Option (List Char)
  application_date : Int
  status : ApplicationStatus
  cv_file : Option (List Char)
  cover_letter : Option (List Char)
deriving DecidableEq

/-- The `applications` table with its SERIAL sequence. -/
structure ApplicationsTable where
  rows : List (Int × JobApplication)
  nextId : Int
deriving DecidableEq

/-- Model of `Database.delete_application` (database.py:234-255): a
malformed identity string is caught and returns False; otherwise DELETE
runs and the result is whether the command tag reported at least one
deleted row. -/
def delete_application (st : ApplicationsTable) (app_id : List Char) :
    Bool × ApplicationsTable :=
  match pyInt app_id with
  | none => (false, st)
  | some n =>
    (decide (0 < st.rows.countP (fun r => decide (r.1 = n))),
     { st with rows := st.rows.filter (fun r => !(decide (r.1 = n))) })

/-- The comparison realised by `ORDER BY application_date DESC`. -/
def appDateDesc (a b : Int × JobApplication) : Prop :=
  b.2.application_date ≤ a.2.application_date

instance decAppDateDesc : DecidableRel appDateDesc :=
  fun _ _ => inferInstanceAs (Decidable (_ ≤ _))

instance totalAppDateDesc : IsTotal (Int × JobApplication) appDateDesc :=
  ⟨fun _ _ => le_total _ _⟩

instance transAppDateDesc : IsTrans (Int × JobApplication) appDateDesc :=
  ⟨fun _ _ _ hab hbc => le_trans hbc hab⟩

/-- The comparison realised by `ORDER BY start_datetime ASC`. -/
def ivStartAsc (a b : Int × Interview) : Prop :=
  a.2.start_datetime ≤ b.2.start_datetime

instance decIvStartAsc : DecidableRel ivStartAsc :=
  fun _ _ => inferInstanceAs (Decidable (_ ≤ _))

instance totalIvStartAsc : IsTotal (Int × Interview) ivStartAsc :=
  ⟨fun _ _ => le_total _ _⟩

instance transIvStartAsc : IsTrans (Int × Interview) ivStartAsc :=
  ⟨fun _ _ _ hab hbc => le_trans hab hbc⟩

/-- Newest-first order on interviews (descending start), the order claimed
by the specification for interview listing. -/
def ivStartDesc (a b : Int × Interview) : Prop :=
  b.2.start_datetime ≤ a.2.start_datetime

instance decIvStartDesc : DecidableRel ivStartDesc :=
  fun _ _ => inferInstanceAs (Decidable (_ ≤ _))

/-- Model of `Database.get_all_applications` (database.py:175-178):
`SELECT * FROM applications ORDER BY application_date DESC`, with the sort
realised as an insertion sort. -/
def get_all_applications (st : ApplicationsTable) : List (Int × JobApplication) :=
  List.insertionSort appDateDesc st.rows

/-- Model of `Database.get_all_interviews` (database.py:374-396) for the
default call (`year=None`, `month=None`, so no WHERE clause is added):
`SELECT * FROM interviews ORDER BY start_datetime ASC`. -/
def get_all_interviews (st : InterviewsTable) : List (Int × Interview) :=
  List.insertionSort ivStartAsc st.rows

/-- JSON whitespace as skipped by `json.loads`: space, tab, newline,
carriage return. -/
def isJsonWs (c : Char) : Bool :=
  c = ' ' || c = '\t' || c = '\n' || c = '\r'

/-- Values produced by `json.loads`.  Integers are exact; a float token
(one with a fraction or exponent, or NaN/Infinity) is kept symbolically as
its literal text. -/
inductive Json where
  | null
  | bool (b : Bool)
  | num (n : Int)
  | fnum (text : List Char)
  | str (s : List Char)
  | arr (elems : List Json)
  | obj (members : List (List Char × Json))

/-- Single-character JSON string escapes. -/
def escChar (c : Char) : Option Char :=
  if c = '"' then some '"'
  else if c = '\\' then some '\\'
  else if c = '/' then some '/'
  else if c = 'b' then some '\x08'
  else if c = 'f' then some '\x0c'
  else if c = 'n' then some '\n'
  else if c = 'r' then some '\r'
  else if c = 't' then some '\t'
  else none

/-- Value of a hexadecimal digit. -/
def hexVal (c : Char) : Option Nat :=
  if c.isDigit then some (c.toNat - 48)
  else if 'a' ≤ c ∧ c ≤ 'f' then some (c.toNat - 87)
  else if 'A' ≤ c ∧ c ≤ 'F' then some (c.toNat - 55)
  else none

/-- JSON string body after the opening quote, in strict mode: a raw control
character fails; escapes are the eight single-character ones and `\uXXXX`.
Returns the decoded characters and the text after the closing quote. -/
def parseJString : Nat → List Char → Option (List Char × List Char)
  | 0, _ => none
  | _ + 1, [] => none
  | fuel + 1, c :: rest =>
    if c = '"' then some ([], rest)
    else if c = '\\' then
      match rest with
      | 'u' :: h1 :: h2 :: h3 :: h4 :: r =>
        match hexVal h1, hexVal h2, hexVal h3, hexVal h4 with
        | some a, some b, some x, some d =>
          match parseJString fuel r with
          | some (s, r2) => some (Char.ofNat (((a * 16 + b) * 16 + x) * 16 + d) :: s, r2)
          | none => none
        | _, _, _, _ => none
      | e :: r =>
        match escChar e with
        | some ec =>
          match parseJString fuel r with
          | some (s, r2) => some (ec :: s, r2)
          | none => none
        | none => none
      | [] => none
    else if c.toNat < 32 then none
    else
      match parseJString fuel rest with
      | some (s, r2) => some (c :: s, r2)
      | none => none

/-- Integer part of the JSON number grammar: `0` alone, or a nonzero digit
followed by digits. -/
def parseIntPart : List Char → Option (List Char × List Char)
  | [] => none
  | c :: rest =>
    if c = '0' then some (['0'], rest)
    else if c.isDigit then
      some (c :: rest.takeWhile Char.isDigit, rest.dropWhile Char.isDigit)
    else none

/-- Optional fraction (`.digits`) and exponent (`[eE][+-]?digits`) parts;
returns the consumed text (empty when absent) and the remainder. -/
def parseFracExp (r1 : List Char) : List Char × List Char :=
  let fr : List Char × List Char :=
    match r1 with
    | '.' :: r =>
      let ds := r.takeWhile Char.isDigit
      if ds.isEmpty then ([], r1) else ('.' :: ds, r.dropWhile Char.isDigit)
    | _ => ([], r1)
  let r2 := fr.2
  let ex : List Char × List Char :=
    match r2 with
    | e :: r =>
      if e = 'e' || e = 'E' then
        match r with
        | s :: r3 =>
          if s = '+' || s = '-' then
            let ds := r3.takeWhile Char.isDigit
            if ds.isEmpty then ([], r2) else (e :: s :: ds, r3.dropWhile Char.isDigit)
          else
            let ds := r.takeWhile Char.isDigit
            if ds.isEmpty then ([], r2) else (e :: ds, r.dropWhile Char.isDigit)
        | [] => ([], r2)
      else ([], r2)
    | [] => ([], r2)
  (fr.1 ++ ex.1, ex.2)

/-- A JSON number starting at `l` (the leading `-` included): exact `num`
when purely integral, symbolic `fnum` otherwise. -/
def parseNumber (l : List Char) : Option (Json × List Char) :=
  match l with
  | '-' :: l1 =>
    match parseIntPart l1 with
    | none => none
    | some (ip, r1) =>
      match parseFracExp r1 with
      | ([], r) => some (.num (-(digitsVal ip)), r)
      | (fe, r) => some (.fnum ('-' :: (ip ++ fe)), r)
  | l1 =>
    match parseIntPart l1 with
    | none => none
    | some (ip, r1) =>
      match parseFracExp r1 with
      | ([], r) => some (.num (digitsVal ip), r)
      | (fe, r) => some (.fnum (ip ++ fe), r)

/-- Insertion into a JSON object in Python dict fashion: a repeated key
keeps its first position but takes the latest value. -/
def objInsert (k : List Char) (v : Json) :
    List (List Char × Json) → List (List Char × Json)
  | [] => [(k, v)]
  | (k2, v2) :: rest => if k2 = k then (k2, v) :: rest else (k2, v2) :: objInsert k v rest

mutual

/-- One JSON value beginning exactly at `l` (callers skip whitespace).
Besides strict JSON, the non-strict constants NaN, Infinity and -Infinity
accepted by `json.loads` are recognised. -/
def parseValue : Nat → List Char → Option (Json × List Char)
  | 0, _ => none
  | fuel + 1, l =>
    match l with
    | [] => none
    | c :: rest =>
      if c = '\x7b' then
        match rest.dropWhile isJsonWs with
        | '\x7d' :: r => some (.obj [], r)
        | r => parseMembers fuel r []
      else if c = '[' then
        match rest.dropWhile isJsonWs with
        | ']' :: r => some (.arr [], r)
        | r => parseElems fuel r []
      else if c = '"' then
        match parseJString (rest.length + 1) rest with
        | some (s, r) => some (.str s, r)
        | none => none
      else if c = 't' then
        if ("rue".data).isPrefixOf rest then some (.bool true, rest.drop 3) else none
      else if c = 'f' then
        if ("alse".data).isPrefixOf rest then some (.bool false, rest.drop 4) else none
      else if c = 'n' then
        if ("ull".data).isPrefixOf rest then some (.null, rest.drop 3) else none
      else if c = 'N' then
        if ("aN".data).isPrefixOf rest then some (.fnum ("NaN".data), rest.drop 2) else none
      else if c = 'I' then
        if ("nfinity".data).isPrefixOf rest then
          some (.fnum ("Infinity".data), rest.drop 7)
        else none
      else if c = '-' ∧ ("Infinity".data).isPrefixOf rest then
        some (.fnum ("-Infinity".data), rest.drop 8)
      else parseNumber l

/-- Array elements: a value, then `,` (continue) or `]` (finish). -/
def parseElems : Nat → List Char → List Json → Option (Json × List Char)
  | 0, _, _ => none
  | fuel + 1, l, acc =>
    match parseValue fuel (l.dropWhile isJsonWs) with
    | none => none
    | some (v, r) =>
      match r.dropWhile isJsonWs with
      | ']' :: r2 => some (.arr (acc ++ [v]), r2)
      | ',' :: r2 => parseElems fuel r2 (acc ++ [v])
      | _ => none

/-- Object members: a quoted key, `:`, a value, then `,` (continue) or `}`
(finish). -/
def parseMembers : Nat → List Char → List (List Char × Json) → Option (Json × List Char)
  | 0, _, _ => none
  | fuel + 1, l, acc =>
    match l.dropWhile isJsonWs with
    | '"' :: r =>
      match parseJString (r.length + 1) r with
      | none => none
      | some (k, r1) =>
        match r1.dropWhile isJsonWs with
        | ':' :: r2 =>
          match parseValue fuel (r2.dropWhile isJsonWs) with
          | none => none
          | some (v, r3) =>
            match r3.dropWhile isJsonWs with
            | '\x7d' :: r4 => some (.obj (objInsert k v acc), r4)
            | ',' :: r4 => parseMembers fuel r4 (objInsert k v acc)
            | _ => none
        | _ => none
    | _ => none

end

/-- Model of `json.loads`: skip leading whitespace, parse one value, then
require only whitespace to remain ("Extra data" otherwise).  The step
budget `2·length + 2` always suffices, since at least one character is
consumed for every two recursion levels. -/
def jsonLoads (l : List Char) : Option Json :=
  match parseValue (2 * l.length + 2) (l.dropWhile isJsonWs) with
  | none => none
  | some (v, r) => if (r.dropWhile isJsonWs).isEmpty then some v else none

/-- Search for `(\]|\})\s*` followed by three backticks: the earliest
position where the lazy `.*?` of the fenced-block regex can stop. -/
def findCloseTicks : List Char → Option Char
  | [] => none
  | c :: rest =>
    if isCloseBr c ∧ ("```".data).isPrefixOf (rest.dropWhile isPySpace) then some c
    else findCloseTicks rest

/-- Attempt to match ai_services.py:14's fenced-block regex
`` ```json\s*(\{|\[).*?(\]|\})\s*``` `` at exactly this position, returning
the two captured bracket characters. -/
def fencedAt (l : List Char) : Option (Char × Char) :=
  if ("```json".data).isPrefixOf l then
    match (l.drop 7).dropWhile isPySpace with
    | b :: rest =>
      if isOpenBr b then
        match findCloseTicks rest with
        | some cl => some (b, cl)
        | none => none
      else none
    | [] => none
  else none

/-- `re.search` of the fenced-block regex: try each start position left to
right. -/
def searchFenced : List Char → Option (Char × Char)
  | [] => none
  | l@(_ :: rest) =>
    match fencedAt l with
    | some r => some r
    | none => searchFenced rest

/-- The shortest prefix of `l` through the first `]` or `}`, if any: where
the lazy `.*?(\]|\})` of the fallback regex can stop. -/
def takeThroughClose : List Char → Option (List Char)
  | [] => none
  | c :: rest =>
    if isCloseBr c then some [c]
    else
      match takeThroughClose rest with
      | some t => some (c :: t)
      | none => none

/-- `re.search` of the fallback regex `(\{|\[).*?(\]|\})` (ai_services.py:20)
returning `group(0)`: the first opening bracket having a closing bracket
somewhere after it, through that first closing bracket. -/
def findSub2 : List Char → Option (List Char)
  | [] => none
  | c :: rest =>
    if isOpenBr c then
      match takeThroughClose rest with
      | some body => some (c :: body)
      | none => findSub2 rest
    else findSub2 rest

/-- The candidate text `json_text` chosen by `parse_response_to_json`
(ai_services.py:13-24): from a fenced block the code keeps only
`group(1) + group(2)` — the two bracket characters; otherwise the whole
first lazy `{...}`/`[...]` match; `none` when neither regex matches
(the "No JSON object or array found" ValueError). -/
def extractCandidate (response : List Char) : Option (List Char) :=
  match searchFenced response with
  | some (b, cl) => some [b, cl]
  | none => findSub2 response

/-- Failures of `parse_response_to_json`: no JSON found, or unparseable
even after cleaning (the latter ValueError's message interpolates the
cleaned text's decode failure and the original response). -/
inductive ParseFail where
  | noJson
  | unparseable (cleaned : List Char) (original : List Char)
deriving DecidableEq

/-- Model of `parse_response_to_json` (ai_services.py:8-39): extract a
candidate, try `json.loads`, on failure strip trailing commas and retry
once, and raise if the retry also fails. -/
def parse_response_to_json (response : List Char) : Except ParseFail Json :=
  match extractCandidate response with
  | none => .error .noJson
  | some jt =>
    match jsonLoads jt with
    | some v => .ok v
    | none =>
      match jsonLoads (removeTC jt) with
      | some v => .ok v
      | none => .error (.unparseable (removeTC jt) response)

/-- Is this result a success? -/
def isOkE : Except α β → Bool
  | .ok _ => true
  | .error _ => false

/-- Identifier characters, for token scanning. -/
def isIdentChar (c : Char) : Bool := c.isAlphanum || c = '_'

/-- Modelled from the spec (§4.1 repair 4): the token substitution table
None→null, True→true, False→false. -/
def tokenMap (w : List Char) : List Char :=
  if w = "None".data then "null".data
  else if w = "True".data then "true".data
  else if w = "False".data then "false".data
  else w

/-- Modelled from the spec (§4.1 repair 4): map each standalone identifier
token through the substitution table, with a step budget. -/
def specPyTokensF : Nat → List Char → List Char
  | 0, l => l
  | _ + 1, [] => []
  | fuel + 1, c :: rest =>
    if isIdentChar c then
      tokenMap (c :: rest.takeWhile isIdentChar) ++
        specPyTokensF fuel (rest.dropWhile isIdentChar)
    else c :: specPyTokensF fuel rest

/-- Modelled from the spec (§4.1 repair 4), with an always sufficient
budget. -/
def specPyTokens (l : List Char) : List Char := specPyTokensF l.length l

/-- The apostrophe character. -/
def squote : Char := Char.ofNat 39

/-- Modelled from the spec (§4.1 repair 2): normalize single quotes to
double quotes outside already-double-quoted strings. -/
def s2dGo (inDq : Bool) : List Char → List Char
  | [] => []
  | c :: rest =>
    if c = '"' then c :: s2dGo (!inDq) rest
    else if c = squote ∧ inDq = false then '"' :: s2dGo inDq rest
    else c :: s2dGo inDq rest

/-- Does the text begin, after whitespace, with a colon? -/
def startsColon (l : List Char) : Bool :=
  match l.dropWhile isPySpace with
  | ':' :: _ => true
  | _ => false

/-- Modelled from the spec (§4.1 repair 3): double-quote a bare identifier
run standing directly after `{` or `,` whose next significant character is
a colon; `prev` is the previous significant character. -/
def quoteBareKeysF : Nat → Char → List Char → List Char
  | 0, _, l => l
  | _ + 1, _, [] => []
  | fuel + 1, prev, c :: rest =>
    if isIdentChar c then
      let run := c :: rest.takeWhile isIdentChar
      let rest2 := rest.dropWhile isIdentChar
      if (prev = '\x7b' ∨ prev = ',') ∧ startsColon rest2 then
        ('"' :: run ++ ['"']) ++ quoteBareKeysF fuel '"' rest2
      else run ++ quoteBareKeysF fuel c rest2
    else if isPySpace c then c :: quoteBareKeysF fuel prev rest
    else c :: quoteBareKeysF fuel c rest

/-- Modelled from the spec (§4.1 repair 3), with an always sufficient
budget. -/
def quoteBareKeys (l : List Char) : List Char := quoteBareKeysF l.length ' ' l

/-- Modelled from the spec (§4.1 repair 5): escape literal newlines and
tabs occurring inside double-quoted strings. -/
def escInStrings (inDq : Bool) : List Char → List Char
  | [] => []
  | c :: rest =>
    if c = '"' then c :: escInStrings (!inDq) rest
    else if inDq = true ∧ c = '\n' then '\\' :: 'n' :: escInStrings inDq rest
    else if inDq = true ∧ c = '\t' then '\\' :: 't' :: escInStrings inDq rest
    else c :: escInStrings inDq rest

/-- Modelled from the spec (§4.1): the full five-step repair sequence the
specification describes — trailing-comma removal, quote normalization,
bare-key quoting, Python-literal mapping, newline/tab escaping. -/
def specRepairSeq (l : List Char) : List Char :=
  escInStrings false (specPyTokens (quoteBareKeys (s2dGo false (removeTC l))))

/-- `Education` (models.py:37-41); the float GPA is kept symbolically as
its literal text. -/
structure Education where
  degree : List Char
  institution : List Char
  graduation_year : Int
  gpa : Option (List Char)
deriving DecidableEq

/-- `Experience` (models.py:44-49). -/
structure Experience where
  position : List Char
  company : List Char
  start_date : List Char
  end_date : Option (List Char)
  description : List Char
deriving DecidableEq

/-- `Skill` (models.py:52-54). -/
structure Skill where
  name : List Char
  level : List Char
deriving DecidableEq

/-- `UserProfile` (models.py:57-72). -/
structure UserProfile where
  id : Option (List Char)
  full_name : List Char
  email : List Char
  phone : List Char
  location : List Char
  summary : List Char
  education : List Education
  experience : List Experience
  skills : List Skill
  languages : List (List Char)
  certifications : List (List Char)
  linkedin_url : Option (List Char)
  github_url : Option (List Char)
  portfolio_url : Option (List Char)
  cv_profile_file : Option (List Char)
deriving DecidableEq

/-- The default profile constructed at main.py:227-230; fields not named
there take the model defaults of models.py:57-72. -/
def defaultEmptyProfile : UserProfile :=
  { id := none, full_name := [], email := [], phone := [], location := [],
    summary := [], education := [], experience := [], skills := [],
    languages := [], certifications := [], linkedin_url := none,
    github_url := none, portfolio_url := none, cv_profile_file := none }

/-- The method names defined on class `Database` (database.py:10-473). -/
def databaseMethodNames : List (List Char) :=
  ["connect".data, "close".data, "_execute".data, "_fetch_one".data,
   "_fetch_all".data, "_create_tables".data, "get_all_applications".data,
   "get_application_by_id".data, "create_application".data,
   "update_application".data, "delete_application".data,
   "get_application".data, "get_profile".data, "save_profile".data,
   "get_all_interviews".data, "get_interview_by_id".data,
   "_check_overlap".data, "create_interview".data, "update_interview".data,
   "delete_interview".data]

/-- Python-level failures surfaced by an endpoint. -/
inductive PyError where
  | attributeError
deriving DecidableEq

/-- Model of the GET /api/profile endpoint (main.py:221-231): the handler
evaluates `db.get_user_profile()`; Python resolves the attribute by name
against the Database class and raises AttributeError when no such method
is defined; were it present, the stored profile — or, if none is stored,
the default empty profile — would be returned. -/
def get_user_profile_endpoint (stored : Option UserProfile) :
    Except PyError UserProfile :=
  if ("get_user_profile".data) ∈ databaseMethodNames then
    match stored with
    | some p => .ok p
    | none => .ok defaultEmptyProfile
  else .error .attributeError

/-- An interview record with the given range and empty text fields. -/
def mkIv (s e : Int) : Interview :=
  { interview_title := [], start_datetime := s, end_datetime := e,
    location := none, notes := none, interview_type := none }

/-- An application record with the given submission date. -/
def mkApp (d : Int) : JobApplication :=
  { job_title := [], company := [], description := none, link := none,
    application_date := d, status := .applied, cv_file := none,
    cover_letter := none }

/-- A store holding one interview from 10 to 20 under id 1. -/
def stOne : InterviewsTable := { rows := [(1, mkIv 10 20)], nextId := 2 }

/-- A store holding interviews starting at 1 and at 5. -/
def stTwo : InterviewsTable :=
  { rows := [(1, mkIv 1 2), (2, mkIv 5 6)], nextId := 3 }

/-- An applications store holding one row under id 1. -/
def stApps : ApplicationsTable := { rows := [(1, mkApp 5)], nextId := 2 }

/-- Claim C3 as written: a candidate whose start is at or after its end
makes creation and update fail, whatever is stored. -/
def C3Claim : Prop :=
  ∀ (st : InterviewsTable) (iv : Interview),
    iv.end_datetime ≤ iv.start_datetime →
    isOkE (create_interview st iv).1 = false ∧
    ∀ ids, isOkE (update_interview st ids iv).1 = false

/-- Claim C4 as written: the overlap check returns true iff some stored,
non-excluded row satisfies the half-open formula against the candidate,
for every candidate pair including zero-length and inverted ranges. -/
def C4Claim : Prop :=
  ∀ (rows : List (Int × Interview)) (s e : Int) (excl : Option Int),
    checkOverlap rows s e excl = true ↔
      ∃ r ∈ rows, (∀ x, excl = some x → r.1 ≠ x) ∧
        formulaOverlaps r.2.start_datetime r.2.end_datetime s e = true

/-- Claim C6 as written: when the candidate fails the initial parse, the
full five-step repair sequence is applied before exactly one retry, whose
success is returned and whose failure carries the cleaned text and the
original reply. -/
def C6Claim : Prop :=
  ∀ r jt : List Char, extractCandidate r = some jt → jsonLoads jt = none →
    parse_response_to_json r =
      (match jsonLoads (specRepairSeq jt) with
       | some v => .ok v
       | none => .error (.unparseable (specRepairSeq jt) r))

/-- Claim C7 as written: the textual repair is idempotent on every input
string. -/
def C7Claim : Prop := ∀ l : List Char, removeTC (removeTC l) = removeTC l

/-- Claim C8 as written: both list operations return newest-first by the
designated timestamp — applications by descending application_date and
interviews by descending start_datetime. -/
def C8Claim : Prop :=
  ∀ (stA : ApplicationsTable) (stI : InterviewsTable),
    (get_all_applications stA).Sorted appDateDesc ∧
    (get_all_interviews stI).Sorted ivStartDesc

theorem matchTrail_some {rest : List Char} {d : Char} {tail : List Char}
    (h : matchTrail rest = some (d, tail)) :
    rest.dropWhile isPySpace = d :: tail ∧ isCloseBr d = true := by
  unfold matchTrail at h
  cases hd : rest.dropWhile isPySpace with
  | nil => rw [hd] at h; cases h
  | cons x xs =>
    rw [hd] at h
    dsimp only at h
    by_cases hc : isCloseBr x = true
    · rw [if_pos hc] at h
      injection h with h2
      injection h2 with h3 h4
      subst h3
      subst h4
      exact ⟨rfl, hc⟩
    · rw [if_neg hc] at h; cases h

theorem matchTrail_some_length {rest : List Char} {d : Char} {tail : List Char}
    (h : matchTrail rest = some (d, tail)) : tail.length < rest.length := by
  have h1 := (matchTrail_some h).1
  have h2 : (rest.dropWhile isPySpace).length ≤ rest.length :=
    (List.dropWhile_sublist isPySpace).length_le
  rw [h1] at h2
  simp only [List.length_cons] at h2
  omega

theorem removeTCF_fuel (fuel1 : Nat) : ∀ (fuel2 : Nat) (l : List Char),
    l.length ≤ fuel1 → l.length ≤ fuel2 → removeTCF fuel1 l = removeTCF fuel2 l := by
  induction fuel1 with
  | zero =>
    intro fuel2 l h1 _
    have : l = [] := List.eq_nil_of_length_eq_zero (Nat.le_zero.mp h1)
    subst this
    cases fuel2 <;> rfl
  | succ fuel1 ih =>
    intro fuel2 l h1 h2
    cases l with
    | nil => cases fuel2 <;> rfl
    | cons c rest =>
      cases fuel2 with
      | zero => simp at h2
      | succ fuel2 =>
        simp only [List.length_cons, Nat.succ_le_succ_iff] at h1 h2
        show removeTCF (fuel1 + 1) (c :: rest) = removeTCF (fuel2 + 1) (c :: rest)
        unfold removeTCF
        by_cases hc : c = ','
        · rw [if_pos hc, if_pos hc]
          cases hm : matchTrail rest with
          | some p =>
            obtain ⟨d, tail⟩ := p
            have hlen := matchTrail_some_length hm
            dsimp only
            rw [ih fuel2 tail (by omega) (by omega)]
          | none => dsimp only; rw [ih fuel2 rest h1 h2]
        · rw [if_neg hc, if_neg hc, ih fuel2 rest h1 h2]

theorem removeTC_nil : removeTC [] = [] := rfl

theorem removeTC_cons (c : Char) (rest : List Char) :
    removeTC (c :: rest) =
      if c = ',' then
        match matchTrail rest with
        | some (d, tail) => d :: removeTC tail
        | none => c :: removeTC rest
      else c :: removeTC rest := by
  show removeTCF (rest.length + 1) (c :: rest) = _
  unfold removeTCF
  by_cases hc : c = ','
  · rw [if_pos hc, if_pos hc]
    cases hm : matchTrail rest with
    | some p =>
      obtain ⟨d, tail⟩ := p
      have hlen := matchTrail_some_length hm
      dsimp only
      rw [removeTCF_fuel rest.length tail.length tail (by omega) le_rfl]
      rfl
    | none => rfl
  · rw [if_neg hc, if_neg hc]
    rfl

theorem any_tails_suffix (p : List Char → Bool) :
    ∀ l t : List Char, t <:+ l → l.tails.any p = false → t.tails.any p = false := by
  intro l
  induction l with
  | nil =>
    intro t ht h
    rw [List.suffix_nil.mp ht]
    exact h
  | cons c r ih =>
    intro t ht h
    rw [List.tails_cons, List.any_cons, Bool.or_eq_false_iff] at h
    rcases List.suffix_cons_iff.mp ht with rfl | ht'
    · rw [List.tails_cons, List.any_cons, Bool.or_eq_false_iff]
      exact h
    · exact ih t ht' h.2

theorem dropWhile_head_false (p : Char → Bool) :
    ∀ l : List Char, ∀ {c : Char} {t : List Char}, l.dropWhile p = c :: t → p c = false := by
  intro l
  induction l with
  | nil => intro c t h; cases h
  | cons a r ih =>
    intro c t h
    rw [List.dropWhile_cons] at h
    by_cases hp : p a = true
    · rw [if_pos hp] at h; exact ih h
    · rw [if_neg hp] at h
      injection h with h1 h2
      subst h1
      exact Bool.eq_false_iff.mpr hp

theorem removeTC_cons_of_ne (c : Char) (rest : List Char) (hc : c ≠ ',') :
    removeTC (c :: rest) = c :: removeTC rest := by
  rw [removeTC_cons, if_neg hc]

theorem removeTC_ws_append : ∀ wsp l : List Char,
    (∀ c ∈ wsp, isPySpace c = true) →
    removeTC (wsp ++ l) = wsp ++ removeTC l := by
  intro wsp
  induction wsp with
  | nil => intro l _; rfl
  | cons w wsp ih =>
    intro l hws
    have hw : isPySpace w = true := hws w (List.mem_cons_self w wsp)
    have hwn : w ≠ ',' := by
      intro he
      subst he
      rw [show isPySpace ',' = false from rfl] at hw
      cases hw
    rw [List.cons_append, removeTC_cons_of_ne w _ hwn,
      ih l (fun c hc => hws c (List.mem_cons_of_mem _ hc)), List.cons_append]

theorem dropWhile_ws_append (p : Char → Bool) : ∀ wsp l : List Char,
    (∀ c ∈ wsp, p c = true) → (wsp ++ l).dropWhile p = l.dropWhile p := by
  intro wsp
  induction wsp with
  | nil => intro l _; rfl
  | cons w wsp ih =>
    intro l hws
    rw [List.cons_append, List.dropWhile_cons, if_pos (hws w (List.mem_cons_self w wsp)),
      ih l (fun c hc => hws c (List.mem_cons_of_mem _ hc))]

theorem removeTC_all_ws (l : List Char) (h : ∀ c ∈ l, isPySpace c = true) :
    removeTC l = l := by
  have hx := removeTC_ws_append l [] h
  rwa [List.append_nil, removeTC_nil, List.append_nil] at hx

theorem matchTrail_removeTC_none (rest : List Char)
    (hm : matchTrail rest = none)
    (hnc : ∀ d t, rest.dropWhile isPySpace = d :: t → d ≠ ',') :
    matchTrail (removeTC rest) = none := by
  have hsplit : rest.takeWhile isPySpace ++ rest.dropWhile isPySpace = rest :=
    List.takeWhile_append_dropWhile isPySpace rest
  have hws : ∀ c ∈ rest.takeWhile isPySpace, isPySpace c = true :=
    fun c hc => List.mem_takeWhile_imp hc
  cases ht : rest.dropWhile isPySpace with
  | nil =>
    have hall : ∀ c ∈ rest, isPySpace c = true := List.dropWhile_eq_nil_iff.mp ht
    rw [removeTC_all_ws rest hall]
    unfold matchTrail
    rw [ht]
  | cons d t =>
    have hdws : isPySpace d = false := dropWhile_head_false isPySpace rest ht
    have hdc : d ≠ ',' := hnc d t ht
    have hdcl : isCloseBr d = false := by
      unfold matchTrail at hm
      rw [ht] at hm
      dsimp only at hm
      by_cases hx : isCloseBr d = true
      · rw [if_pos hx] at hm; cases hm
      · exact Bool.eq_false_iff.mpr hx
    have hrw : removeTC rest = rest.takeWhile isPySpace ++ d :: removeTC t := by
      conv_lhs => rw [← hsplit, ht]
      rw [removeTC_ws_append _ (d :: t) hws, removeTC_cons_of_ne d t hdc]
    rw [hrw]
    unfold matchTrail
    rw [dropWhile_ws_append isPySpace _ _ hws, List.dropWhile_cons, if_neg (by rw [hdws]; exact Bool.false_ne_true)]
    dsimp only
    rw [if_neg (by rw [hdcl]; exact Bool.false_ne_true)]

theorem removeTC_eq_self_of_no_match : ∀ l : List Char,
    hasCWC l = false → removeTC l = l := by
  intro l
  induction l with
  | nil => intro _; rfl
  | cons c rest ih =>
    intro h
    rw [hasCWC, List.tails_cons, List.any_cons, Bool.or_eq_false_iff] at h
    obtain ⟨h1, h2⟩ := h
    by_cases hc : c = ','
    · subst hc
      have hm : matchTrail rest = none := by
        unfold startsCWC at h1
        dsimp only at h1
        cases hmm : matchTrail rest with
        | none => rfl
        | some p =>
          rw [hmm] at h1
          simp at h1
      rw [removeTC_cons, if_pos rfl, hm]
      dsimp only
      rw [ih h2]
    · rw [removeTC_cons_of_ne c rest hc, ih h2]

theorem hasCWC_removeTC : ∀ (n : Nat) (l : List Char), l.length ≤ n →
    hasCWComma l = false → hasCWC (removeTC l) = false := by
  intro n
  induction n with
  | zero =>
    intro l hl _
    have : l = [] := List.eq_nil_of_length_eq_zero (Nat.le_zero.mp hl)
    subst this
    rfl
  | succ n ih =>
    intro l hl hcc
    cases l with
    | nil => rfl
    | cons c rest =>
      simp only [List.length_cons, Nat.succ_le_succ_iff] at hl
      rw [hasCWComma, List.tails_cons, List.any_cons, Bool.or_eq_false_iff] at hcc
      obtain ⟨hcc1, hcc2⟩ := hcc
      have hrest_suffix : ∀ t : List Char, t <:+ rest → hasCWComma t = false :=
        fun t ht => any_tails_suffix startsCWComma rest t ht hcc2
      by_cases hc : c = ','
      · subst hc
        cases hm : matchTrail rest with
        | some p =>
          obtain ⟨d, tail⟩ := p
          rw [removeTC_cons, if_pos rfl, hm]
          dsimp only
          have hd := matchTrail_some hm
          have hdc : d ≠ ',' := by
            intro he
            rw [he] at hd
            rw [show isCloseBr ',' = false from rfl] at hd
            exact Bool.false_ne_true hd.2
          rw [hasCWC, List.tails_cons, List.any_cons, Bool.or_eq_false_iff]
          constructor
          · unfold startsCWC
            simp [hdc]
          · have htail : tail <:+ rest :=
              List.IsSuffix.trans (List.suffix_cons d tail)
                (hd.1 ▸ List.dropWhile_suffix isPySpace)
            have hlen := matchTrail_some_length hm
            exact ih tail (by omega) (hrest_suffix tail htail)
        | none =>
          rw [removeTC_cons, if_pos rfl, hm]
          dsimp only
          rw [hasCWC, List.tails_cons, List.any_cons, Bool.or_eq_false_iff]
          constructor
          · have hnc : ∀ d t, rest.dropWhile isPySpace = d :: t → d ≠ ',' := by
              intro d t hdt he
              unfold startsCWComma at hcc1
              dsimp only at hcc1
              rw [hdt] at hcc1
              simp [he] at hcc1
            unfold startsCWC
            dsimp only
            rw [matchTrail_removeTC_none rest hm hnc]
            simp
          · exact ih rest hl (hrest_suffix rest (List.suffix_refl rest))
      · rw [removeTC_cons_of_ne c rest hc]
        rw [hasCWC, List.tails_cons, List.any_cons, Bool.or_eq_false_iff]
        constructor
        · unfold startsCWC
          simp [hc]
        · exact ih rest hl (hrest_suffix rest (List.suffix_refl rest))

theorem pgOverlaps_true_iff (s1 e1 s2 e2 : Int) :
    pgOverlaps s1 e1 s2 e2 = true ↔
      ((min s2 e2 < min s1 e1 → min s1 e1 < max s2 e2) ∧
       (min s1 e1 < min s2 e2 → min s2 e2 < max s1 e1)) := by
  simp only [pgOverlaps]
  split
  next hc =>
    simp only [decide_eq_true_eq]
    constructor
    · intro hlt; exact ⟨fun _ => hlt, fun hx => absurd hc (lt_asymm hx)⟩
    · intro hp; exact hp.1 hc
  next hc =>
    split
    next hd =>
      simp only [decide_eq_true_eq]
      constructor
      · intro hlt; exact ⟨fun hx => absurd hx hc, fun _ => hlt⟩
      · intro hp; exact hp.2 hd
    next hd =>
      simp only [true_iff]
      exact ⟨fun hx => absurd hx hc, fun hx => absurd hx hd⟩

theorem formulaOverlaps_imp_pgOverlaps (s1 e1 s2 e2 : Int)
    (h : formulaOverlaps s1 e1 s2 e2 = true) : pgOverlaps s1 e1 s2 e2 = true := by
  simp only [formulaOverlaps, Bool.and_eq_true, decide_eq_true_eq] at h
  rw [pgOverlaps_true_iff]
  refine ⟨fun _ => ?_, fun _ => ?_⟩
  · exact lt_of_le_of_lt (min_le_left s1 e1) (lt_of_lt_of_le h.1 (le_max_right s2 e2))
  · exact lt_of_le_of_lt (min_le_left s2 e2) (lt_of_lt_of_le h.2 (le_max_right s1 e1))

theorem formulaOverlaps_swap_imp_pgOverlaps (s1 e1 s2 e2 : Int)
    (h : formulaOverlaps s2 e2 s1 e1 = true) : pgOverlaps s1 e1 s2 e2 = true := by
  simp only [formulaOverlaps, Bool.and_eq_true, decide_eq_true_eq] at h
  rw [pgOverlaps_true_iff]
  refine ⟨fun _ => ?_, fun _ => ?_⟩
  · exact lt_of_le_of_lt (min_le_left s1 e1) (lt_of_lt_of_le h.2 (le_max_right s2 e2))
  · exact lt_of_le_of_lt (min_le_left s2 e2) (lt_of_lt_of_le h.1 (le_max_right s1 e1))

theorem pgOverlaps_symm (s1 e1 s2 e2 : Int) :
    pgOverlaps s1 e1 s2 e2 = pgOverlaps s2 e2 s1 e1 := by
  rw [Bool.eq_iff_iff, pgOverlaps_true_iff, pgOverlaps_true_iff]
  exact ⟨fun h => ⟨h.2, h.1⟩, fun h => ⟨h.2, h.1⟩⟩

theorem pgOverlaps_eq_formulaOverlaps_of_proper (s1 e1 s2 e2 : Int)
    (h1 : s1 < e1) (h2 : s2 < e2) :
    pgOverlaps s1 e1 s2 e2 = formulaOverlaps s1 e1 s2 e2 := by
  simp only [pgOverlaps, formulaOverlaps, min_eq_left h1.le, max_eq_right h1.le,
    min_eq_left h2.le, max_eq_right h2.le]
  split
  next hc => rw [Bool.eq_iff_iff]; simp only [decide_eq_true_eq, Bool.and_eq_true]; omega
  next hc =>
    split
    next hd => rw [Bool.eq_iff_iff]; simp only [decide_eq_true_eq, Bool.and_eq_true]; omega
    next hd =>
      rw [Bool.eq_iff_iff]
      simp only [decide_eq_true_eq, Bool.and_eq_true, true_iff]
      omega

theorem checkOverlap_none_eq_false {rows : List (Int × Interview)} {s e : Int}
    (h : checkOverlap rows s e none = false) :
    ∀ r ∈ rows, pgOverlaps r.2.start_datetime r.2.end_datetime s e = false := by
  intro r hr
  simp only [checkOverlap, List.any_eq_false] at h
  have hx := h r hr
  simpa using hx

theorem checkOverlap_some_eq_false {rows : List (Int × Interview)} {s e n : Int}
    (h : checkOverlap rows s e (some n) = false) :
    ∀ r ∈ rows, r.1 ≠ n →
      pgOverlaps r.2.start_datetime r.2.end_datetime s e = false := by
  intro r hr hrn
  simp only [checkOverlap, List.any_eq_false] at h
  have hx := h r hr
  simpa [hrn] using hx

theorem invDb_empty : InvDb dbEmpty := by
  refine ⟨?_, ?_, ?_⟩ <;> simp [dbEmpty]

theorem invDb_create (st : InterviewsTable) (iv : Interview) (h : InvDb st) :
    InvDb (create_interview st iv).2 := by
  obtain ⟨hb, hid, hpg⟩ := h
  unfold create_interview
  split
  · exact ⟨hb, hid, hpg⟩
  next hc =>
    have hcf : checkOverlap st.rows iv.start_datetime iv.end_datetime none = false :=
      Bool.not_eq_true _ ▸ Bool.eq_false_iff.mpr hc
    refine ⟨?_, ?_, ?_⟩
    · intro r hr
      simp only at hr ⊢
      rcases List.mem_append.mp hr with h1 | h1
      · exact lt_trans (hb r h1) (lt_add_one _)
      · rw [List.mem_singleton.mp h1]; exact lt_add_one _
    · simp only
      rw [List.pairwise_append]
      refine ⟨hid, List.pairwise_singleton _ _, ?_⟩
      intro a ha b hbm
      rw [List.mem_singleton.mp hbm]
      exact ne_of_lt (hb a ha)
    · simp only
      rw [List.pairwise_append]
      refine ⟨hpg, List.pairwise_singleton _ _, ?_⟩
      intro a ha b hbm
      rw [List.mem_singleton.mp hbm]
      exact checkOverlap_none_eq_false hcf a ha

theorem invDb_update (st : InterviewsTable) (ids : List Char) (iv : Interview)
    (h : InvDb st) : InvDb (update_interview st ids iv).2 := by
  obtain ⟨hb, hid, hpg⟩ := h
  unfold update_interview
  cases hp : pyInt ids with
  | none => exact ⟨hb, hid, hpg⟩
  | some n =>
    simp only
    split
    · exact ⟨hb, hid, hpg⟩
    next hc =>
      have hcf : checkOverlap st.rows iv.start_datetime iv.end_datetime (some n) = false :=
        Bool.not_eq_true _ ▸ Bool.eq_false_iff.mpr hc
      split
      case isTrue =>
        have hf1 : ∀ r : Int × Interview,
            (if r.1 = n then ((n, iv) : Int × Interview) else r).1 = r.1 := by
          intro r; split
          next he => exact he.symm
          next => rfl
        refine ⟨?_, ?_, ?_⟩
        · intro r' hr'
          simp only at hr' ⊢
          obtain ⟨r, hr, rfl⟩ := List.mem_map.mp hr'
          rw [hf1]
          exact hb r hr
        · simp only
          rw [List.pairwise_map]
          refine hid.imp ?_
          intro a b hab
          rw [hf1, hf1]
          exact hab
        · simp only
          rw [List.pairwise_map]
          refine List.Pairwise.imp_of_mem ?_ (hid.and hpg)
          intro a b ha hbm hr
          obtain ⟨hne, hpgab⟩ := hr
          by_cases han : a.1 = n <;> by_cases hbn : b.1 = n
          · exact absurd (han.trans hbn.symm) hne
          · simp only [if_pos han, if_neg hbn]
            rw [pgOverlaps_symm]
            exact checkOverlap_some_eq_false hcf b hbm hbn
          · simp only [if_neg han, if_pos hbn]
            exact checkOverlap_some_eq_false hcf a ha han
          · simp only [if_neg han, if_neg hbn]
            exact hpgab
      case isFalse => exact ⟨hb, hid, hpg⟩

theorem invDb_step (st : InterviewsTable) (op : Op) (h : InvDb st) :
    InvDb (stepOp st op) := by
  cases op with
  | create iv => exact invDb_create st iv h
  | update ids iv => exact invDb_update st ids iv h

theorem invDb_runOps (ops : List Op) : InvDb (runOps ops) := by
  suffices h : ∀ st, InvDb st → InvDb (ops.foldl stepOp st) from h dbEmpty invDb_empty
  induction ops with
  | nil => intro st h; exact h
  | cons op ops ih => intro st h; exact ih _ (invDb_step st op h)

/-- C1: the claim says a valid JSON value wrapped in a ```json fenced block
is recovered exactly, the whole interior being the parse candidate.  The
code instead concatenates only `group(1) + group(2)` — the two bracket
characters — so for the fenced reply holding `{"a": 1}` the candidate is
`{}` and the empty object is returned, contradicting the claim (and the
code's own "Reconstruct the full JSON" comment). -/
theorem c1_fenced_interior_dropped :
    jsonLoads ("\x7b\"a\": 1\x7d".data) = some (.obj [("a".data, .num 1)]) ∧
    extractCandidate ("Reply: ```json\n\x7b\"a\": 1\x7d\n``` done".data) =
      some ['\x7b', '\x7d'] ∧
    parse_response_to_json ("Reply: ```json\n\x7b\"a\": 1\x7d\n``` done".data) =
      .ok (.obj []) ∧
    Json.obj [] ≠ Json.obj [("a".data, .num 1)] := by
  refine ⟨rfl, rfl, rfl, ?_⟩
  intro h
  injection h with h2
  cases h2

/-- C2: after any sequence of interview create and update operations
starting from the empty store, no two distinct stored interviews A, B
satisfy `A.start < B.end AND A.end > B.start`. -/
theorem c2_no_stored_overlap (ops : List Op) : NoPairOverlap (runOps ops).rows := by
  obtain ⟨-, -, hpg⟩ := invDb_runOps ops
  refine hpg.imp ?_
  intro a b hab
  constructor
  · cases hfa : formulaOverlaps a.2.start_datetime a.2.end_datetime
        b.2.start_datetime b.2.end_datetime with
    | false => rfl
    | true =>
      have hx := formulaOverlaps_imp_pgOverlaps _ _ _ _ hfa
      rw [hab] at hx
      cases hx
  · cases hfb : formulaOverlaps b.2.start_datetime b.2.end_datetime
        a.2.start_datetime a.2.end_datetime with
    | false => rfl
    | true =>
      have hx := formulaOverlaps_swap_imp_pgOverlaps _ _ _ _ hfb
      rw [hab] at hx
      cases hx

theorem c2_no_stored_overlap_witness :
    NoPairOverlap (runOps [Op.create (mkIv 10 20), Op.create (mkIv 15 25)]).rows :=
  c2_no_stored_overlap [Op.create (mkIv 10 20), Op.create (mkIv 15 25)]

/-- C3 counterexample: no start < end validation exists anywhere in the
code — creating the zero-length interview (10, 10) on the empty store
succeeds, where the claim demands an InvalidRangeError failure. -/
theorem c3_counterexample : ¬ C3Claim := by
  intro h
  have hx := (h dbEmpty (mkIv 10 10) le_rfl).1
  rw [show isOkE (create_interview dbEmpty (mkIv 10 10)).1 = true from rfl] at hx
  cases hx

/-- C3 amended: create_interview and update_interview perform no range
validation; for a candidate with start ≥ end the outcome is decided solely
by the overlap check — they succeed exactly when it reports no conflict. -/
theorem c3_overlap_gated_only (st : InterviewsTable) (iv : Interview)
    (_hr : iv.end_datetime ≤ iv.start_datetime) (ids : List Char) (n : Int)
    (hid : pyInt ids = some n) :
    (isOkE (create_interview st iv).1 = true ↔
      checkOverlap st.rows iv.start_datetime iv.end_datetime none = false) ∧
    (isOkE (update_interview st ids iv).1 = true ↔
      checkOverlap st.rows iv.start_datetime iv.end_datetime (some n) = false) := by
  constructor
  · unfold create_interview
    cases hc : checkOverlap st.rows iv.start_datetime iv.end_datetime none with
    | false => simp [isOkE]
    | true => simp [isOkE]
  · unfold update_interview
    rw [hid]
    dsimp only
    cases hc : checkOverlap st.rows iv.start_datetime iv.end_datetime (some n) with
    | false =>
      by_cases ha : st.rows.any (fun r => decide (r.1 = n)) = true
      · simp [ha, isOkE]
      · simp [ha, isOkE]
    | true => simp [isOkE]

theorem c3_overlap_gated_only_witness :
    (isOkE (create_interview stOne (mkIv 10 10)).1 = true ↔
      checkOverlap stOne.rows 10 10 none = false) ∧
    (isOkE (update_interview stOne ['2'] (mkIv 10 10)).1 = true ↔
      checkOverlap stOne.rows 10 10 (some 2) = false) :=
  c3_overlap_gated_only stOne (mkIv 10 10) le_rfl ['2'] 2 (by decide)

/-- C4 counterexample: for the zero-length candidate (10, 10) against a
stored row (10, 11), PostgreSQL's OVERLAPS reports a conflict (equal
normalized starts always overlap) while the half-open formula
`existing.start < candidate.end AND existing.end > candidate.start` is
false — the claimed equivalence fails on zero-length ranges. -/
theorem c4_counterexample : ¬ C4Claim := by
  intro h
  have hx := (h [(1, mkIv 10 11)] 10 10 none).mp (by decide)
  obtain ⟨r, hr, -, hf⟩ := hx
  rw [List.mem_singleton.mp hr] at hf
  exact absurd hf (by decide)

/-- C4 amended: the check is an existence test of PostgreSQL's OVERLAPS
predicate over non-excluded rows; whenever the candidate range and every
stored range are proper (start < end) it coincides with the half-open
formula test of the claim. -/
theorem c4_check_eq_formula_on_proper (rows : List (Int × Interview))
    (s e : Int) (excl : Option Int) (hse : s < e)
    (hrows : ∀ r ∈ rows, r.2.start_datetime < r.2.end_datetime) :
    checkOverlap rows s e excl =
      rows.any (fun r =>
        (match excl with
         | some x => decide (r.1 ≠ x)
         | none => true) &&
        formulaOverlaps r.2.start_datetime r.2.end_datetime s e) := by
  unfold checkOverlap
  revert hrows
  induction rows with
  | nil => intro _; rfl
  | cons r rows ih =>
    intro hrows
    rw [List.any_cons, List.any_cons,
      pgOverlaps_eq_formulaOverlaps_of_proper _ _ _ _
        (hrows r (List.mem_cons_self r rows)) hse,
      ih (fun x hx => hrows x (List.mem_cons_of_mem _ hx))]

theorem c4_check_eq_formula_on_proper_witness :
    checkOverlap stOne.rows 15 25 (some 2) =
      stOne.rows.any (fun r =>
        decide (r.1 ≠ 2) &&
        formulaOverlaps r.2.start_datetime r.2.end_datetime 15 25) :=
  c4_check_eq_formula_on_proper stOne.rows 15 25 (some 2) (by decide)
    (by decide)

/-- C5: whenever the overlap check reports a conflict, create_interview
and update_interview raise the scheduling-conflict ValueError before any
write, leaving the stored set exactly as it was. -/
theorem c5_conflict_rejected_without_mutation (st : InterviewsTable)
    (iv : Interview) :
    (checkOverlap st.rows iv.start_datetime iv.end_datetime none = true →
      create_interview st iv = (.error .conflict, st)) ∧
    (∀ ids n, pyInt ids = some n →
      checkOverlap st.rows iv.start_datetime iv.end_datetime (some n) = true →
      update_interview st ids iv = (.error .conflict, st)) := by
  constructor
  · intro hc
    unfold create_interview
    rw [if_pos hc]
  · intro ids n hp hc
    unfold update_interview
    rw [hp]
    dsimp only
    rw [if_pos hc]

theorem c5_conflict_rejected_without_mutation_witness :
    create_interview stOne (mkIv 15 25) = (.error .conflict, stOne) ∧
    update_interview stOne ['2'] (mkIv 15 25) = (.error .conflict, stOne) :=
  ⟨(c5_conflict_rejected_without_mutation stOne (mkIv 15 25)).1 (by decide),
   (c5_conflict_rejected_without_mutation stOne (mkIv 15 25)).2 ['2'] 2
     (by decide) (by decide)⟩

/-- C6 counterexample: for the reply `[None]` the candidate fails the
initial parse; the claimed five-step repair (which maps None to null)
would make the retry return `[null]`, but the code's only repair is
trailing-comma removal, so it raises instead. -/
theorem c6_counterexample : ¬ C6Claim := by
  intro h
  have hx := h ("[None]".data) ("[None]".data) rfl rfl
  rw [show specRepairSeq ("[None]".data) = ("[null]".data) from rfl] at hx
  rw [show jsonLoads ("[null]".data) = some (.arr [.null]) from rfl] at hx
  dsimp only at hx
  rw [show parse_response_to_json ("[None]".data) =
      .error (.unparseable ("[None]".data) ("[None]".data)) from rfl] at hx
  cases hx

/-- C6 amended: when the candidate fails the initial parse, the only
repair applied is trailing-comma removal, followed by exactly one retry;
if the retry also fails, the ValueError carries the cleaned text's decode
failure and the original reply. -/
theorem c6_single_repair_single_retry (r jt : List Char)
    (he : extractCandidate r = some jt) (hp : jsonLoads jt = none) :
    parse_response_to_json r =
      (match jsonLoads (removeTC jt) with
       | some v => .ok v
       | none => .error (.unparseable (removeTC jt) r)) := by
  unfold parse_response_to_json
  rw [he]
  dsimp only
  rw [hp]

theorem c6_single_repair_single_retry_witness :
    parse_response_to_json ("\x7b\"a\": 1,\x7d".data) =
      (match jsonLoads (removeTC ("\x7b\"a\": 1,\x7d".data)) with
       | some v => .ok v
       | none => .error (.unparseable (removeTC ("\x7b\"a\": 1,\x7d".data))
           ("\x7b\"a\": 1,\x7d".data))) :=
  c6_single_repair_single_retry ("\x7b\"a\": 1,\x7d".data)
    ("\x7b\"a\": 1,\x7d".data) rfl rfl

/-- C7 counterexample: the repair is not idempotent — on `,,}` one pass
yields `,}` (the second comma's removal exposes the first), and a second
pass yields `}`. -/
theorem c7_counterexample : ¬ C7Claim := by
  intro h
  exact absurd (h (",,\x7d".data)) (by decide)

/-- C7 amended: the repair is idempotent on every input in which no comma
is followed, across optional whitespace, by another comma — removing a
trailing comma can only expose a new match in that configuration. -/
theorem c7_idempotent_without_comma_runs (l : List Char)
    (h : hasCWComma l = false) :
    removeTC (removeTC l) = removeTC l :=
  removeTC_eq_self_of_no_match (removeTC l)
    (hasCWC_removeTC l.length l le_rfl h)

theorem c7_idempotent_without_comma_runs_witness :
    removeTC (removeTC ("\x7b\"a\": 1,\x7d".data)) =
      removeTC ("\x7b\"a\": 1,\x7d".data) :=
  c7_idempotent_without_comma_runs ("\x7b\"a\": 1,\x7d".data) (by decide)

/-- C8 counterexample: get_all_interviews orders by `start_datetime ASC`,
so a store holding interviews starting at 1 and at 5 comes back
oldest-first, not newest-first as claimed. -/
theorem c8_counterexample : ¬ C8Claim := by
  intro h
  have hx := (h stApps stTwo).2
  exact absurd hx (by decide)

/-- C8 amended: get_all_applications returns rows sorted by descending
application_date, but get_all_interviews returns rows sorted by ascending
start_datetime (oldest first). -/
theorem c8_list_orders (stA : ApplicationsTable) (stI : InterviewsTable) :
    (get_all_applications stA).Sorted appDateDesc ∧
    (get_all_interviews stI).Sorted ivStartAsc :=
  ⟨List.sorted_insertionSort appDateDesc stA.rows,
   List.sorted_insertionSort ivStartAsc stI.rows⟩

theorem c8_list_orders_witness :
    (get_all_applications stApps).Sorted appDateDesc ∧
    (get_all_interviews stTwo).Sorted ivStartAsc :=
  c8_list_orders stApps stTwo

/-- C9: for every identity string that parses as an integer,
delete_interview returns True whether or not a row with that identity is
stored, while delete_application returns False when no row was deleted. -/
theorem c9_delete_interview_always_true (stI : InterviewsTable)
    (stA : ApplicationsTable) (ids : List Char) (n : Int)
    (hid : pyInt ids = some n) :
    (delete_interview stI ids).1 = .ok true ∧
    ((∀ r ∈ stA.rows, r.1 ≠ n) → (delete_application stA ids).1 = false) := by
  constructor
  · unfold delete_interview
    rw [hid]
  · intro hnone
    unfold delete_application
    rw [hid]
    dsimp only
    have hcz : stA.rows.countP (fun r => decide (r.1 = n)) = 0 := by
      rw [List.countP_eq_zero]
      intro a ha
      simp [hnone a ha]
    rw [hcz]
    rfl

theorem c9_delete_interview_always_true_witness :
    (delete_interview stOne ['9'] ).1 = .ok true ∧
    ((∀ r ∈ stApps.rows, r.1 ≠ 9) → (delete_application stApps ['9']).1 = false) :=
  c9_delete_interview_always_true stOne stApps ['9'] 9 (by decide)

/-- C10: the claim says GET /api/profile returns the default empty profile
when none is stored; but main.py:224 calls `db.get_user_profile()` and
class Database defines no such method (its getter is `get_profile`), so
the endpoint raises AttributeError instead of returning the default. -/
theorem c10_profile_endpoint_attribute_error :
    get_user_profile_endpoint none = .error .attributeError ∧
    (Except.error PyError.attributeError ≠
      (Except.ok defaultEmptyProfile : Except PyError UserProfile)) := by
  constructor
  · rfl
  · intro h
    cases h

end AppTracker
